import Mathlib

/-!
Verification development for the di-wu/parser repository.

Part 1 embeds the AST node tree of `src/ast/node.go`. Go's heap of
mutually linked `*Node` values is modelled as a total map from node
identifiers (`Nat`) to node records, with pointer fields as `Option Nat`
(`none` is Go's `nil`). Each Go assignment statement becomes one
functional heap update, in the order of the source; reads are re-performed
at each use site so that aliasing behaves as in Go.

Part 2 embeds the cursor, matching and serialization layers. Their code
(`parser.go`, the `op` package, `ast/json.go`) is not under src/ — only
their tests are — so those definitions are modelled from the spec, marked
`Modelled from the spec:` in their doc comments, and checked against the
concrete behaviour the in-src tests pin down.
-/

set_option autoImplicit false

namespace ast

/-- Node mirrors the struct of src/ast/node.go: a type tag, an optional
value (Go `interface{}`, modelled as `Option String` since every value in
the claims is a string), and the five link fields. -/
structure Node where
  type : Int
  value : Option String
  parent : Option Nat
  previousSibling : Option Nat
  nextSibling : Option Nat
  firstChild : Option Nat
  lastChild : Option Nat
deriving DecidableEq

/-- A Go heap of nodes: every identifier maps to a node record. -/
def Heap : Type := Nat → Node

/-- The zero value of `Node`: all links nil, no value, type 0. -/
def emptyNode : Node := ⟨0, none, none, none, none, none, none⟩

/-- The heap in which every identifier holds the zero node. -/
def heap0 : Heap := fun _ => emptyNode

/-- Store a node record at an identifier. -/
def writeNode (h : Heap) (i : Nat) (nd : Node) : Heap :=
  fun j => if j = i then nd else h j

def rdParent (h : Heap) (i : Nat) : Option Nat := (h i).parent

def rdPrevious (h : Heap) (i : Nat) : Option Nat := (h i).previousSibling

def rdNext (h : Heap) (i : Nat) : Option Nat := (h i).nextSibling

def rdFirst (h : Heap) (i : Nat) : Option Nat := (h i).firstChild

def rdLast (h : Heap) (i : Nat) : Option Nat := (h i).lastChild

def updParent (h : Heap) (i : Nat) (v : Option Nat) : Heap :=
  writeNode h i { h i with parent := v }

def updPrevious (h : Heap) (i : Nat) (v : Option Nat) : Heap :=
  writeNode h i { h i with previousSibling := v }

def updNext (h : Heap) (i : Nat) (v : Option Nat) : Heap :=
  writeNode h i { h i with nextSibling := v }

def updFirst (h : Heap) (i : Nat) (v : Option Nat) : Heap :=
  writeNode h i { h i with firstChild := v }

def updLast (h : Heap) (i : Nat) (v : Option Nat) : Heap :=
  writeNode h i { h i with lastChild := v }

/-- SetPrevious inserts the given node as the previous sibling
(src/ast/node.go lines 74-97). The first branch of the Go source has no
`return`, so after splicing between two existing siblings control falls
through into the code written for the no-previous-sibling case, which
ends by redirecting the parent's FirstChild to the inserted sibling. -/
def SetPrevious (h : Heap) (n sibling : Nat) : Heap :=
  let h1 := updParent h sibling (rdParent h n)
  let h2 :=
    if (rdPrevious h1 n).isSome then
      let ha := updPrevious h1 sibling (rdPrevious h1 n)
      let hb := updNext ha sibling (some n)
      let hc :=
        match rdPrevious hb n with
        | some p => updNext hb p (some sibling)
        | none => hb
      updPrevious hc n (some sibling)
    else h1
  let h3 := updPrevious h2 n (some sibling)
  let h4 := updNext h3 sibling (some n)
  match rdParent h4 n with
  | some p => updFirst h4 p (some sibling)
  | none => h4

/-- SetNext inserts the given node as the next sibling
(src/ast/node.go lines 100-124). Unlike SetPrevious, the first branch
returns, so the two cases are exclusive. -/
def SetNext (h : Heap) (n sibling : Nat) : Heap :=
  let h1 := updParent h sibling (rdParent h n)
  if (rdNext h1 n).isSome then
    let ha := updNext h1 sibling (rdNext h1 n)
    let hb := updPrevious ha sibling (some n)
    let hc :=
      match rdNext hb n with
      | some nx => updPrevious hb nx (some sibling)
      | none => hb
    updNext hc n (some sibling)
  else
    let ha := updPrevious h1 sibling (some n)
    let hb := updNext ha n (some sibling)
    match rdParent hb n with
    | some p => updLast hb p (some sibling)
    | none => hb

/-- SetFirst inserts the given node as the first child
(src/ast/node.go lines 127-138). -/
def SetFirst (h : Heap) (n child : Nat) : Heap :=
  match rdFirst h n with
  | some f => SetPrevious h f child
  | none =>
    let h1 := updParent h child (some n)
    let h2 := updFirst h1 n (some child)
    updLast h2 n (some child)

/-- SetLast inserts the given node as the last child
(src/ast/node.go lines 141-152). When FirstChild is set but LastChild is
nil the Go code dereferences a nil pointer; that state never arises here
because both child pointers are always assigned together. -/
def SetLast (h : Heap) (n child : Nat) : Heap :=
  if (rdFirst h n).isSome then
    match rdLast h n with
    | some l => SetNext h l child
    | none => h
  else
    let h1 := updParent h child (some n)
    let h2 := updFirst h1 n (some child)
    updLast h2 n (some child)

/-- IsParent returns whether the node has children (src/ast/node.go lines
56-59). -/
def IsParent (h : Heap) (n : Nat) : Bool := (rdFirst h n).isSome

/-- The loop of Children (src/ast/node.go lines 67-69): the condition is
checked on the current pointer, the body advances it, and the
post-statement appends the advanced pointer, so the final nil is appended
before the loop stops. Go's unbounded pointer chase is given fuel. -/
def childrenLoop (h : Heap) : Nat → Option Nat → List (Option Nat)
  | 0, _ => []
  | _ + 1, none => []
  | fuel + 1, some i => rdNext h i :: childrenLoop h fuel (rdNext h i)

/-- Children returns all the children of the node (src/ast/node.go lines
62-71): the empty list for a childless node, otherwise the first child
followed by everything the loop appends. -/
def Children (h : Heap) (n : Nat) (fuel : Nat) : List (Option Nat) :=
  match rdFirst h n with
  | none => []
  | some f => some f :: childrenLoop h fuel (some f)

/-- The backward walk named by the spec: follow PreviousSibling links,
collecting identifiers, starting from a given pointer. -/
def backWalk (h : Heap) : Nat → Option Nat → List Nat
  | 0, _ => []
  | _ + 1, none => []
  | fuel + 1, some i => i :: backWalk h fuel (rdPrevious h i)

/-- A parent (node 0) with two children, node 1 then node 2, into whose
middle `SetPrevious` will splice the fresh node 3. -/
def midHeap : Heap :=
  writeNode (writeNode (writeNode heap0
    0 { emptyNode with firstChild := some 1, lastChild := some 2 })
    1 { emptyNode with parent := some 0, nextSibling := some 2 })
    2 { emptyNode with parent := some 0, previousSibling := some 1 }

/-- The heap after the middle splice `node2.SetPrevious(node3)`. -/
def midHeapSpliced : Heap := SetPrevious midHeap 2 3

/-- A node built by a sequence of `SetLast` insertions: node 0 receives
children 1, 2, ..., k in that order, all starting from zero-valued nodes. -/
def buildLast (k : Nat) : Heap :=
  (List.range' 1 k).foldl (fun h c => SetLast h 0 c) heap0

/-- Closed form for the heap `buildLast` reaches after inserting the
first `j` children: node 0 points at 1 and j, child i sits between its
neighbours, everything else is untouched. -/
def builtHeap (j : Nat) : Heap := fun i =>
  if i = 0 then
    { emptyNode with firstChild := if j = 0 then none else some 1,
                     lastChild := if j = 0 then none else some j }
  else if i ≤ j then
    { emptyNode with parent := some 0,
                     previousSibling := (if i = 1 then none else some (i - 1)),
                     nextSibling := (if i = j then none else some (i + 1)) }
  else emptyNode

/-- Decides that `xs` is exactly the forward sibling chain hanging from
the pointer `c`: each listed node is reached in turn via NextSibling and
the chain ends in nil. -/
def chainB (h : Heap) : Option Nat → List Nat → Bool
  | c, [] => c.isNone
  | c, x :: xs => (c == some x) && chainB h (rdNext h x) xs

/-- The leaf-or-parent invariant of the spec: no node both carries a value
and has children. -/
def LeafOrParent (h : Heap) : Prop :=
  ∀ i, (h i).value = none ∨ (h i).firstChild = none

/-- Modelled from the spec: a successful non-nested Capture creates a new
leaf Node carrying the given type and the matched (or converted) value;
the allocating code is not under src/, only the Capture struct is. -/
def captureLeaf (t : Int) (v : String) : Node :=
  { emptyNode with type := t, value := some v }

/-- Two Capture-produced leaves, at identifiers 0 and 1. -/
def leafHeap : Heap :=
  writeNode (writeNode heap0 0 (captureLeaf 0 "x")) 1 (captureLeaf 1 "y")

/-- Modelled from the spec (section 4.5): the escape table of the
serializer — backslash, double quote, backspace, form feed, newline,
carriage return and tab are escaped, all other characters pass through. -/
def escapeChar (c : Char) : String :=
  if c.toNat = 92 then "\\\\"
  else if c.toNat = 34 then "\\\""
  else if c.toNat = 8 then "\\b"
  else if c.toNat = 12 then "\\f"
  else if c.toNat = 10 then "\\n"
  else if c.toNat = 13 then "\\r"
  else if c.toNat = 9 then "\\t"
  else String.singleton c

/-- Escape every character of a value string. -/
def escape (s : String) : String := String.join (s.data.map escapeChar)

/-- Render a leaf value as a quoted, escaped string. -/
def quoteValue (v : Option String) : String := "\"" ++ escape (v.getD "") ++ "\""

/-- Modelled from the spec and ExampleNode_MarshalJSONString: the
serializer of ast/json.go, whose code is not under src/. It renders the
sibling chain starting at the given pointer as comma-separated node
renderings: a leaf as the two-element array of its type and quoted value,
a parent as the bracketed list of its children's renderings — without a
leading type element, following the output pinned by the in-src example
(the spec's prose instead gives parents a leading type; see
`marshalSibsSpec`). -/
def marshalSibs (h : Heap) : Nat → Option Nat → String
  | 0, _ => ""
  | _ + 1, none => ""
  | fuel + 1, some i =>
    let self :=
      match rdFirst h i with
      | none => "[" ++ toString (h i).type ++ "," ++ quoteValue (h i).value ++ "]"
      | some f => "[" ++ marshalSibs h fuel (some f) ++ "]"
    match rdNext h i with
    | none => self
    | some nx => self ++ "," ++ marshalSibs h fuel (some nx)

/-- Serialize one node (the Go entry point renders the receiver alone). -/
def MarshalJSONString (h : Heap) (fuel i : Nat) : String := marshalSibs h fuel (some i)

/-- The renderer exactly as the spec's prose describes it, for comparison:
a parent renders as the two-element array of its type and the bracketed
children list. -/
def marshalSibsSpec (h : Heap) : Nat → Option Nat → String
  | 0, _ => ""
  | _ + 1, none => ""
  | fuel + 1, some i =>
    let self :=
      match rdFirst h i with
      | none => "[" ++ toString (h i).type ++ "," ++ quoteValue (h i).value ++ "]"
      | some f => "[" ++ toString (h i).type ++ ",[" ++ marshalSibsSpec h fuel (some f) ++ "]]"
    match rdNext h i with
    | none => self
    | some nx => self ++ "," ++ marshalSibsSpec h fuel (some nx)

/-- The six leaves of ExampleNode_MarshalJSONString: five runes 'a'
captured as type 0 and one newline captured as type 1, at identifiers
1 through 6; identifier 0 is the root-to-be. -/
def jsonLeaves : Heap := fun i =>
  if i = 0 then emptyNode
  else if i ≤ 5 then captureLeaf 0 "a"
  else if i = 6 then captureLeaf 1 "\n"
  else emptyNode

/-- The tree of ExampleNode_MarshalJSONString, assembled with the real
SetLast of node.go: the six leaves become children of node 0 in order. -/
def jsonHeap : Heap := [1, 2, 3, 4, 5, 6].foldl (fun h c => SetLast h 0 c) jsonLeaves

end ast

namespace pkg

/-- Modelled from the spec: the sentinel end-of-data rune returned once the
cursor is past the last rune. parser.go is not under src/; the spec fixes
only that it is a sentinel distinct from real input runes, so the scanner
convention -1 is used. -/
def EOD : Int := -1

/-- Modelled from the spec: the parser state of one parse (spec section 3):
decoded rune buffer, current rune offset, current line and column, and the
single-slot pending carriage-return flag. -/
structure Parser where
  buffer : List Int
  offset : Nat
  line : Nat
  column : Nat
  pendingCR : Bool
deriving DecidableEq

/-- Modelled from the spec: construction from an already decoded rune
sequence (the Go constructor decodes UTF-8 bytes; malformed input fails
before any state exists, so the model starts from the rune list). -/
def New (rs : List Int) : Parser := ⟨rs, 0, 0, 0, false⟩

/-- Modelled from the spec: the rune at the cursor, or EOD past the end. -/
def Current (p : Parser) : Int := (p.buffer.get? p.offset).getD EOD

/-- Modelled from the spec: the rune one position ahead, or EOD. -/
def Peek (p : Parser) : Int := (p.buffer.get? (p.offset + 1)).getD EOD

/-- Modelled from the spec: true once the cursor has advanced past the
last rune. -/
def Done (p : Parser) : Bool := p.buffer.length ≤ p.offset

/-- Modelled from the spec: an immutable snapshot of the current rune and
enough state to re-derive its position and slice the buffer. -/
structure Cursor where
  rune : Int
  offset : Nat
  line : Nat
  column : Nat
deriving DecidableEq

/-- Snapshot the current rune and position. -/
def Mark (p : Parser) : Cursor := ⟨Current p, p.offset, p.line, p.column⟩

/-- The 0-indexed line and column of a mark. -/
def Position (c : Cursor) : Nat × Nat := (c.line, c.column)

/-- Modelled from the spec (section 4.1): advance one rune, updating line
and column with one rune of lookahead; a no-op at end of data. A carriage
return followed by a line feed only bumps the column and sets the pending
flag; the line feed that completes the pair, a lone carriage return, and
a plain line feed each add exactly one line and reset the column; any
other rune bumps the column. -/
def Next (p : Parser) : Parser :=
  if Done p then p
  else
    let c := Current p
    if c = 13 ∧ Peek p = 10 then
      { p with offset := p.offset + 1, column := p.column + 1, pendingCR := true }
    else if c = 13 then
      { p with offset := p.offset + 1, line := p.line + 1, column := 0, pendingCR := false }
    else if c = 10 ∧ p.pendingCR then
      { p with offset := p.offset + 1, line := p.line + 1, column := 0, pendingCR := false }
    else if c = 10 then
      { p with offset := p.offset + 1, line := p.line + 1, column := 0, pendingCR := false }
    else
      { p with offset := p.offset + 1, column := p.column + 1, pendingCR := false }

/-- Iterate `Next` the given number of times. -/
def iterNext (p : Parser) : Nat → Parser
  | 0 => p
  | k + 1 => iterNext (Next p) k

/-- Modelled from the spec: the substring of the original buffer between
two marks, inclusive of both marks' runes (TestParser_Slice slices from
the mark at the first rune to the mark at the last rune and receives the
whole string back). -/
def Slice (p : Parser) (a b : Cursor) : List Int :=
  (p.buffer.drop a.offset).take (b.offset + 1 - a.offset)

/-- The regression input of Example_line_returns: LF LF CR LF CR CR LF CR. -/
def lineInput : List Int := [10, 10, 13, 10, 13, 13, 10, 13]

/-- Modelled from the spec: what a failed Expect was looking for — a rune
literal or a string literal. -/
inductive Expectation where
  | rune : Int → Expectation
  | str : List Int → Expectation
deriving DecidableEq

/-- Modelled from the spec (sections 3 and 7) and the fields exercised by
TestParser_Expect_string_err: the structured match failure, carrying what
was expected, the actual text found (field `String` in the Go struct,
sliced from the input with the same length as the expectation), and the
position of the failure point. -/
structure ExpectedParseError where
  Expected : Expectation
  String : List Int
  line : Nat
  column : Nat
deriving DecidableEq

/-- Modelled from the spec: Expect for the single-rune matcher shape —
matches iff the current rune is the literal, consuming exactly one rune;
on failure it reports without advancing the cursor. -/
def ExpectRune (p : Parser) (r : Int) : Except ExpectedParseError Cursor × Parser :=
  if Current p = r then (Except.ok (Mark p), Next p)
  else
    (Except.error
      ⟨Expectation.rune r, (p.buffer.drop p.offset).take 1, p.line, p.column⟩, p)

/-- Modelled from the spec: the literal-string matcher loop — rune by
rune, consuming on each match, returning the mark of the last consumed
rune; on the first mismatch the cursor stays at the mismatching rune. -/
def checkStr (last : Option Cursor) (p : Parser) : List Int → (Option Cursor × Bool) × Parser
  | [] => ((last, true), p)
  | r :: rs =>
    if Current p = r then checkStr (some (Mark p)) (Next p) rs
    else ((last, false), p)

/-- Modelled from the spec: Expect for the literal-string matcher shape;
on failure the error's actual text is sliced from the input at the
position where the match began, with the length of the expected literal. -/
def ExpectString (p : Parser) (s : List Int) : Except ExpectedParseError Cursor × Parser :=
  match checkStr none p s with
  | ((some c, true), p2) => (Except.ok c, p2)
  | ((none, true), p2) => (Except.ok (Mark p2), p2)
  | ((_, false), p2) =>
    (Except.error
      ⟨Expectation.str s, (p.buffer.drop p.offset).take s.length, p2.line, p2.column⟩, p2)

/-- Modelled from the spec: the predicate-function matcher shape — given
the parser it may inspect and advance freely, returning a mark and a
success flag together with the updated parser state. -/
def Matcher : Type := Parser → (Option Cursor × Bool) × Parser

/-- A matcher that always fails without moving. -/
def failMatcher : Matcher := fun p => ((none, false), p)

/-- A matcher that always succeeds without moving. -/
def okMatcher : Matcher := fun p => ((none, true), p)

end pkg

namespace op

/-- Modelled from the spec: the loop of the sequence combinator — run each
sub-matcher in order, threading the parser state and remembering the last
result mark; the instant one fails, fail and rewind to the pre-sequence
state p0. -/
def AndLoop (p0 : pkg.Parser) : List pkg.Matcher → pkg.Parser → Option pkg.Cursor →
    (Option pkg.Cursor × Bool) × pkg.Parser
  | [], p, last => ((last, true), p)
  | m :: ms, p, _ =>
    match m p with
    | ((c, true), p2) => AndLoop p0 ms p2 c
    | ((_, false), _) => ((none, false), p0)

/-- Modelled from the spec: the sequence combinator And — succeeds with
the last element's mark when every element succeeds, fails and restores
the pre-sequence cursor position otherwise. -/
def And (ms : List pkg.Matcher) (p : pkg.Parser) : (Option pkg.Cursor × Bool) × pkg.Parser :=
  AndLoop p ms p none

end op

namespace ast

theorem builtHeap_zero_eq {j : Nat} (hj : j ≠ 0) :
    builtHeap j 0 = ⟨0, none, none, none, none, some 1, some j⟩ := by
  simp [builtHeap, hj, emptyNode]

theorem builtHeap_mid_eq {j i : Nat} (h0 : i ≠ 0) (hle : i ≤ j) :
    builtHeap j i = ⟨0, none, some 0, (if i = 1 then none else some (i - 1)),
      (if i = j then none else some (i + 1)), none, none⟩ := by
  simp [builtHeap, h0, hle, emptyNode]

theorem builtHeap_high_eq {j i : Nat} (h0 : i ≠ 0) (hgt : ¬ i ≤ j) :
    builtHeap j i = ⟨0, none, none, none, none, none, none⟩ := by
  simp [builtHeap, h0, hgt, emptyNode]

theorem setLast_builtHeap (j : Nat) :
    SetLast (builtHeap j) 0 (j + 1) = builtHeap (j + 1) := by
  rcases Nat.eq_zero_or_pos j with hj | hj
  · subst hj
    funext i
    by_cases h0 : i = 0
    · subst h0
      simp [SetLast, builtHeap, rdFirst, rdLast, updParent, updFirst, updLast,
        writeNode, emptyNode]
    · by_cases h1 : i = 1
      · subst h1
        simp [SetLast, builtHeap, rdFirst, rdLast, updParent, updFirst, updLast,
          writeNode, emptyNode]
      · have h2 : ¬ i ≤ 1 := by omega
        have h3 : ¬ i ≤ 0 := by omega
        simp [SetLast, builtHeap, rdFirst, rdLast, updParent, updFirst, updLast,
          writeNode, emptyNode, h0, h1, h2, h3]
  · have hj0 : j ≠ 0 := by omega
    have hs0 : j + 1 ≠ 0 := by omega
    have hjs : j ≠ j + 1 := by omega
    have hsj : j + 1 ≠ j := by omega
    have h0s : (0:Nat) ≠ j + 1 := by omega
    have h0j : (0:Nat) ≠ j := by omega
    have hmid := builtHeap_mid_eq (j := j) (i := j) hj0 (le_refl j)
    have hhigh := builtHeap_high_eq (j := j) (i := j + 1) hs0 (by omega)
    have hzero := builtHeap_zero_eq (j := j) hj0
    have hfirst : rdFirst (builtHeap j) 0 = some 1 := by simp [rdFirst, hzero]
    have hlast : rdLast (builtHeap j) 0 = some j := by simp [rdLast, hzero]
    simp only [SetLast, hfirst, Option.isSome_some, if_true, hlast]
    funext i
    by_cases hi0 : i = 0
    · subst hi0
      simp [SetNext, rdParent, rdNext, updParent, updPrevious, updNext, updLast,
        writeNode, hmid, hhigh, hzero, hj0, hs0, hjs, hsj, h0s, h0j, builtHeap, emptyNode]
    · by_cases his : i = j + 1
      · subst his
        simp [SetNext, rdParent, rdNext, updParent, updPrevious, updNext, updLast,
          writeNode, hmid, hhigh, hzero, hj0, hs0, hjs, hsj, h0s, h0j, builtHeap, emptyNode]
      · by_cases hij : i = j
        · subst hij
          simp [SetNext, rdParent, rdNext, updParent, updPrevious, updNext, updLast,
            writeNode, hmid, hhigh, hzero, hj0, hs0, hjs, hsj, h0s, h0j, builtHeap, emptyNode]
        · by_cases hle : i ≤ j
          · have hles : i ≤ j + 1 := by omega
            have hmi := builtHeap_mid_eq (j := j) (i := i) hi0 hle
            simp [SetNext, rdParent, rdNext, updParent, updPrevious, updNext, updLast,
              writeNode, hmid, hhigh, hzero, hmi, hi0, his, hij, hle, hles,
              hj0, hs0, hjs, hsj, h0s, h0j, builtHeap, emptyNode]
          · have hgts : ¬ i ≤ j + 1 := by omega
            have hhi := builtHeap_high_eq (j := j) (i := i) hi0 hle
            simp [SetNext, rdParent, rdNext, updParent, updPrevious, updNext, updLast,
              writeNode, hmid, hhigh, hzero, hhi, hi0, his, hij, hle, hgts,
              hj0, hs0, hjs, hsj, h0s, h0j, builtHeap, emptyNode]

theorem builtHeap_zero : builtHeap 0 = heap0 := by
  funext i
  rcases Nat.eq_zero_or_pos i with hi | hi
  · subst hi
    simp [builtHeap, heap0, emptyNode]
  · have h0 : i ≠ 0 := by omega
    have h1 : ¬ i ≤ 0 := by omega
    simp [builtHeap, heap0, h0, h1]

theorem foldl_setLast (m j : Nat) :
    (List.range' (j + 1) m).foldl (fun h c => SetLast h 0 c) (builtHeap j) = builtHeap (j + m) := by
  induction m generalizing j with
  | zero => simp
  | succ m ih =>
    rw [List.range'_succ, List.foldl_cons, setLast_builtHeap j]
    have h := ih (j + 1)
    rw [show j + (m + 1) = j + 1 + m by omega]
    exact h

theorem buildLast_eq (k : Nat) : buildLast k = builtHeap k := by
  have h := foldl_setLast k 0
  rw [builtHeap_zero] at h
  simpa [buildLast] using h

theorem childrenLoop_none (h : Heap) (fuel : Nat) : childrenLoop h fuel none = [] := by
  cases fuel <;> rfl

theorem backWalk_none (h : Heap) (fuel : Nat) : backWalk h fuel none = [] := by
  cases fuel <;> rfl

theorem childrenLoop_built {k : Nat} (d : Nat) :
    ∀ i fuel, 1 ≤ i → i + d = k → d + 1 ≤ fuel →
      childrenLoop (builtHeap k) fuel (some i) = (List.range' (i + 1) d).map some ++ [none] := by
  induction d with
  | zero =>
    intro i fuel h1 hik hf
    have hik' : i = k := by omega
    subst hik'
    obtain ⟨f, rfl⟩ : ∃ f, fuel = f + 1 := ⟨fuel - 1, by omega⟩
    have hnext : rdNext (builtHeap i) i = none := by
      simp [rdNext, builtHeap_mid_eq (j := i) (i := i) (by omega) (le_refl i)]
    simp [childrenLoop, hnext, childrenLoop_none]
  | succ d ih =>
    intro i fuel h1 hik hf
    obtain ⟨f, rfl⟩ : ∃ f, fuel = f + 1 := ⟨fuel - 1, by omega⟩
    have hij : i ≠ k := by omega
    have hnext : rdNext (builtHeap k) i = some (i + 1) := by
      simp [rdNext, builtHeap_mid_eq (j := k) (i := i) (by omega) (by omega), hij]
    rw [List.range'_succ]
    simp only [childrenLoop, hnext, List.map_cons, List.cons_append]
    rw [ih (i + 1) f (by omega) (by omega) (by omega)]

theorem children_buildLast {k : Nat} (fuel : Nat) (hk : 1 ≤ k) (hf : k ≤ fuel) :
    Children (buildLast k) 0 fuel = (List.range' 1 k).map some ++ [none] := by
  rw [buildLast_eq]
  have hfirst : rdFirst (builtHeap k) 0 = some 1 := by
    simp [rdFirst, builtHeap_zero_eq (j := k) (by omega)]
  simp only [Children, hfirst]
  rw [childrenLoop_built (k - 1) 1 fuel (by omega) (by omega) (by omega)]
  rw [show k = (k - 1) + 1 by omega, List.range'_succ]
  simp

theorem backWalk_built {k : Nat} (i : Nat) :
    ∀ fuel, 1 ≤ i → i ≤ k → i ≤ fuel →
      backWalk (builtHeap k) fuel (some i) = (List.range' 1 i).reverse := by
  induction i with
  | zero => intro fuel h1; omega
  | succ i ih =>
    intro fuel h1 hik hf
    obtain ⟨f, rfl⟩ : ∃ f, fuel = f + 1 := ⟨fuel - 1, by omega⟩
    rcases Nat.eq_zero_or_pos i with hi0 | hi0
    · subst hi0
      have hprev : rdPrevious (builtHeap k) 1 = none := by
        simp [rdPrevious, builtHeap_mid_eq (j := k) (i := 1) (by omega) (by omega)]
      simp [backWalk, hprev, List.range'_succ, backWalk_none]
    · have hne1 : i + 1 ≠ 1 := by omega
      have hprev : rdPrevious (builtHeap k) (i + 1) = some i := by
        simp [rdPrevious, builtHeap_mid_eq (j := k) (i := i + 1) (by omega) (by omega), hne1]
      have hr : List.range' 1 (i + 1) = List.range' 1 i ++ [1 + i] := by
        rw [List.range'_1_concat]
      simp only [backWalk, hprev]
      rw [ih f hi0 (by omega) (by omega), hr]
      simp [List.reverse_append]
      omega

theorem childrenLoop_chain (h : Heap) :
    ∀ (xs : List Nat) (x : Nat) (fuel : Nat),
      chainB h (rdNext h x) xs = true → xs.length + 1 ≤ fuel →
      childrenLoop h fuel (some x) = xs.map some ++ [none] := by
  intro xs
  induction xs with
  | nil =>
    intro x fuel hc hf
    obtain ⟨f, rfl⟩ : ∃ f, fuel = f + 1 := ⟨fuel - 1, by omega⟩
    have hn : rdNext h x = none := by
      simpa [chainB, Option.isNone_iff_eq_none] using hc
    simp [childrenLoop, hn, childrenLoop_none]
  | cons y ys ih =>
    intro x fuel hc hf
    obtain ⟨f, rfl⟩ : ∃ f, fuel = f + 1 := ⟨fuel - 1, by omega⟩
    simp only [chainB, Bool.and_eq_true, beq_iff_eq] at hc
    obtain ⟨h1, h2⟩ := hc
    simp only [childrenLoop, h1, List.map_cons, List.cons_append]
    rw [ih y f h2 (by simp at hf ⊢; omega)]

theorem rdParent_updParent (h : Heap) (a : Nat) (v : Option Nat) (b : Nat) :
    rdParent (updParent h a v) b = if b = a then v else rdParent h b := by
  by_cases hb : b = a <;> simp [rdParent, updParent, writeNode, hb]

theorem rdParent_updPrevious (h : Heap) (a : Nat) (v : Option Nat) (b : Nat) :
    rdParent (updPrevious h a v) b = rdParent h b := by
  by_cases hb : b = a <;> simp [rdParent, updPrevious, writeNode, hb]

theorem rdParent_updNext (h : Heap) (a : Nat) (v : Option Nat) (b : Nat) :
    rdParent (updNext h a v) b = rdParent h b := by
  by_cases hb : b = a <;> simp [rdParent, updNext, writeNode, hb]

theorem rdParent_updFirst (h : Heap) (a : Nat) (v : Option Nat) (b : Nat) :
    rdParent (updFirst h a v) b = rdParent h b := by
  by_cases hb : b = a <;> simp [rdParent, updFirst, writeNode, hb]

theorem rdParent_updLast (h : Heap) (a : Nat) (v : Option Nat) (b : Nat) :
    rdParent (updLast h a v) b = rdParent h b := by
  by_cases hb : b = a <;> simp [rdParent, updLast, writeNode, hb]

theorem rdPrevious_updParent (h : Heap) (a : Nat) (v : Option Nat) (b : Nat) :
    rdPrevious (updParent h a v) b = rdPrevious h b := by
  by_cases hb : b = a <;> simp [rdPrevious, updParent, writeNode, hb]

theorem rdPrevious_updPrevious (h : Heap) (a : Nat) (v : Option Nat) (b : Nat) :
    rdPrevious (updPrevious h a v) b = if b = a then v else rdPrevious h b := by
  by_cases hb : b = a <;> simp [rdPrevious, updPrevious, writeNode, hb]

theorem rdPrevious_updNext (h : Heap) (a : Nat) (v : Option Nat) (b : Nat) :
    rdPrevious (updNext h a v) b = rdPrevious h b := by
  by_cases hb : b = a <;> simp [rdPrevious, updNext, writeNode, hb]

theorem rdPrevious_updFirst (h : Heap) (a : Nat) (v : Option Nat) (b : Nat) :
    rdPrevious (updFirst h a v) b = rdPrevious h b := by
  by_cases hb : b = a <;> simp [rdPrevious, updFirst, writeNode, hb]

theorem rdPrevious_updLast (h : Heap) (a : Nat) (v : Option Nat) (b : Nat) :
    rdPrevious (updLast h a v) b = rdPrevious h b := by
  by_cases hb : b = a <;> simp [rdPrevious, updLast, writeNode, hb]

theorem rdNext_updParent (h : Heap) (a : Nat) (v : Option Nat) (b : Nat) :
    rdNext (updParent h a v) b = rdNext h b := by
  by_cases hb : b = a <;> simp [rdNext, updParent, writeNode, hb]

theorem rdNext_updPrevious (h : Heap) (a : Nat) (v : Option Nat) (b : Nat) :
    rdNext (updPrevious h a v) b = rdNext h b := by
  by_cases hb : b = a <;> simp [rdNext, updPrevious, writeNode, hb]

theorem rdNext_updNext (h : Heap) (a : Nat) (v : Option Nat) (b : Nat) :
    rdNext (updNext h a v) b = if b = a then v else rdNext h b := by
  by_cases hb : b = a <;> simp [rdNext, updNext, writeNode, hb]

theorem rdNext_updFirst (h : Heap) (a : Nat) (v : Option Nat) (b : Nat) :
    rdNext (updFirst h a v) b = rdNext h b := by
  by_cases hb : b = a <;> simp [rdNext, updFirst, writeNode, hb]

theorem rdNext_updLast (h : Heap) (a : Nat) (v : Option Nat) (b : Nat) :
    rdNext (updLast h a v) b = rdNext h b := by
  by_cases hb : b = a <;> simp [rdNext, updLast, writeNode, hb]

theorem rdFirst_updParent (h : Heap) (a : Nat) (v : Option Nat) (b : Nat) :
    rdFirst (updParent h a v) b = rdFirst h b := by
  by_cases hb : b = a <;> simp [rdFirst, updParent, writeNode, hb]

theorem rdFirst_updPrevious (h : Heap) (a : Nat) (v : Option Nat) (b : Nat) :
    rdFirst (updPrevious h a v) b = rdFirst h b := by
  by_cases hb : b = a <;> simp [rdFirst, updPrevious, writeNode, hb]

theorem rdFirst_updNext (h : Heap) (a : Nat) (v : Option Nat) (b : Nat) :
    rdFirst (updNext h a v) b = rdFirst h b := by
  by_cases hb : b = a <;> simp [rdFirst, updNext, writeNode, hb]

theorem rdFirst_updFirst (h : Heap) (a : Nat) (v : Option Nat) (b : Nat) :
    rdFirst (updFirst h a v) b = if b = a then v else rdFirst h b := by
  by_cases hb : b = a <;> simp [rdFirst, updFirst, writeNode, hb]

theorem rdFirst_updLast (h : Heap) (a : Nat) (v : Option Nat) (b : Nat) :
    rdFirst (updLast h a v) b = rdFirst h b := by
  by_cases hb : b = a <;> simp [rdFirst, updLast, writeNode, hb]

theorem rdLast_updParent (h : Heap) (a : Nat) (v : Option Nat) (b : Nat) :
    rdLast (updParent h a v) b = rdLast h b := by
  by_cases hb : b = a <;> simp [rdLast, updParent, writeNode, hb]

theorem rdLast_updPrevious (h : Heap) (a : Nat) (v : Option Nat) (b : Nat) :
    rdLast (updPrevious h a v) b = rdLast h b := by
  by_cases hb : b = a <;> simp [rdLast, updPrevious, writeNode, hb]

theorem rdLast_updNext (h : Heap) (a : Nat) (v : Option Nat) (b : Nat) :
    rdLast (updNext h a v) b = rdLast h b := by
  by_cases hb : b = a <;> simp [rdLast, updNext, writeNode, hb]

theorem rdLast_updFirst (h : Heap) (a : Nat) (v : Option Nat) (b : Nat) :
    rdLast (updFirst h a v) b = rdLast h b := by
  by_cases hb : b = a <;> simp [rdLast, updFirst, writeNode, hb]

theorem rdLast_updLast (h : Heap) (a : Nat) (v : Option Nat) (b : Nat) :
    rdLast (updLast h a v) b = if b = a then v else rdLast h b := by
  by_cases hb : b = a <;> simp [rdLast, updLast, writeNode, hb]

theorem updParent_value (h : Heap) (a : Nat) (v : Option Nat) (b : Nat) :
    ((updParent h a v) b).value = (h b).value := by
  by_cases hb : b = a <;> simp [updParent, writeNode, hb]

theorem updPrevious_value (h : Heap) (a : Nat) (v : Option Nat) (b : Nat) :
    ((updPrevious h a v) b).value = (h b).value := by
  by_cases hb : b = a <;> simp [updPrevious, writeNode, hb]

theorem updNext_value (h : Heap) (a : Nat) (v : Option Nat) (b : Nat) :
    ((updNext h a v) b).value = (h b).value := by
  by_cases hb : b = a <;> simp [updNext, writeNode, hb]

theorem updFirst_value (h : Heap) (a : Nat) (v : Option Nat) (b : Nat) :
    ((updFirst h a v) b).value = (h b).value := by
  by_cases hb : b = a <;> simp [updFirst, writeNode, hb]

theorem updLast_value (h : Heap) (a : Nat) (v : Option Nat) (b : Nat) :
    ((updLast h a v) b).value = (h b).value := by
  by_cases hb : b = a <;> simp [updLast, writeNode, hb]

theorem SetPrevious_value (h : Heap) (n s i : Nat) :
    ((SetPrevious h n s) i).value = (h i).value := by
  simp only [SetPrevious]
  rcases hprev : rdPrevious h n with _ | p <;>
    rcases hpar : rdParent h n with _ | q <;>
      simp [rdParent_updParent, rdParent_updPrevious, rdParent_updNext,
        rdPrevious_updParent, rdPrevious_updPrevious, rdPrevious_updNext,
        updParent_value, updPrevious_value, updNext_value, updFirst_value,
        updLast_value, hprev, hpar]

theorem SetNext_value (h : Heap) (n s i : Nat) :
    ((SetNext h n s) i).value = (h i).value := by
  simp only [SetNext]
  rcases hnext : rdNext h n with _ | p <;>
    rcases hpar : rdParent h n with _ | q <;>
      simp [rdParent_updParent, rdParent_updPrevious, rdParent_updNext,
        rdNext_updParent, rdNext_updPrevious, rdNext_updNext,
        updParent_value, updPrevious_value, updNext_value, updFirst_value,
        updLast_value, hnext, hpar]

theorem SetFirst_value (h : Heap) (n c i : Nat) :
    ((SetFirst h n c) i).value = (h i).value := by
  simp only [SetFirst]
  rcases hfst : rdFirst h n with _ | f <;>
    simp [SetPrevious_value, updParent_value, updFirst_value, updLast_value, hfst]

theorem SetLast_value (h : Heap) (n c i : Nat) :
    ((SetLast h n c) i).value = (h i).value := by
  simp only [SetLast]
  rcases hfst : rdFirst h n with _ | f <;>
    rcases hlst : rdLast h n with _ | l <;>
      simp [SetNext_value, updParent_value, updFirst_value, updLast_value, hfst, hlst]

theorem SetNext_firstChild (h : Heap) (n s i : Nat) :
    ((SetNext h n s) i).firstChild = (h i).firstChild := by
  have updParent_first : ∀ (h' : Heap) a v b, ((updParent h' a v) b).firstChild = (h' b).firstChild := by
    intro h' a v b
    by_cases hb : b = a <;> simp [updParent, writeNode, hb]
  have updPrevious_first : ∀ (h' : Heap) a v b, ((updPrevious h' a v) b).firstChild = (h' b).firstChild := by
    intro h' a v b
    by_cases hb : b = a <;> simp [updPrevious, writeNode, hb]
  have updNext_first : ∀ (h' : Heap) a v b, ((updNext h' a v) b).firstChild = (h' b).firstChild := by
    intro h' a v b
    by_cases hb : b = a <;> simp [updNext, writeNode, hb]
  have updLast_first : ∀ (h' : Heap) a v b, ((updLast h' a v) b).firstChild = (h' b).firstChild := by
    intro h' a v b
    by_cases hb : b = a <;> simp [updLast, writeNode, hb]
  simp only [SetNext]
  rcases hnext : rdNext h n with _ | p <;>
    rcases hpar : rdParent h n with _ | q <;>
      simp [rdParent_updParent, rdParent_updPrevious, rdParent_updNext,
        rdNext_updParent, rdNext_updPrevious, rdNext_updNext,
        updParent_first, updPrevious_first, updNext_first, updLast_first, hnext, hpar]

theorem updFirst_firstChild (h : Heap) (a : Nat) (v : Option Nat) (b : Nat) :
    ((updFirst h a v) b).firstChild = if b = a then v else (h b).firstChild := by
  by_cases hb : b = a <;> simp [updFirst, writeNode, hb]

theorem SetLast_leafOrParent (h : Heap) (n c : Nat)
    (hlp : LeafOrParent h) (hv : (h n).value = none) :
    LeafOrParent (SetLast h n c) := by
  intro i
  have hval : ((SetLast h n c) i).value = (h i).value := SetLast_value h n c i
  by_cases hfc : (rdFirst h n).isSome
  · rcases hl : rdLast h n with _ | l
    · simpa [SetLast, hfc, hl] using hlp i
    · have hfst : ((SetLast h n c) i).firstChild = (h i).firstChild := by
        simp [SetLast, hfc, hl, SetNext_firstChild]
      rw [hval, hfst]
      exact hlp i
  · have hfst : ((SetLast h n c) i).firstChild
        = if i = n then some c else (h i).firstChild := by
      have updParent_first : ∀ (h' : Heap) a v b, ((updParent h' a v) b).firstChild = (h' b).firstChild := by
        intro h' a v b
        by_cases hb : b = a <;> simp [updParent, writeNode, hb]
      have updLast_first : ∀ (h' : Heap) a v b, ((updLast h' a v) b).firstChild = (h' b).firstChild := by
        intro h' a v b
        by_cases hb : b = a <;> simp [updLast, writeNode, hb]
      simp [SetLast, hfc, updFirst_firstChild, updLast_first, updParent_first]
    rw [hval, hfst]
    by_cases hi : i = n
    · subst hi
      exact Or.inl hv
    · simpa [hi] using hlp i

end ast

/-- C1: the claim says every SetFirst/SetLast/SetPrevious/SetNext call
keeps the sibling list of the affected parent consistent in both
directions and updates the parent's FirstChild/LastChild only for splices
at a list end — in particular a mid-list SetPrevious splice must leave
FirstChild unchanged. The code violates this: splicing node 3 before the
second of two children falls through the branch without a `return` and
redirects FirstChild to the spliced node, after which the first child is
no longer reachable forward from FirstChild and the backward walk from
LastChild overshoots FirstChild. This theorem evaluates the code at that
failing input. -/
theorem setPrevious_mid_splice_clobbers_firstChild :
    ast.rdFirst ast.midHeap 0 = some 1 ∧
    ast.rdFirst ast.midHeapSpliced 0 = some 3 ∧
    ast.rdPrevious ast.midHeapSpliced 3 = some 1 ∧
    ast.rdNext ast.midHeapSpliced 1 = some 3 ∧
    ast.rdParent ast.midHeapSpliced 3 = some 0 ∧
    ast.backWalk ast.midHeapSpliced 4 (ast.rdLast ast.midHeapSpliced 0) = [2, 3, 1] ∧
    ast.Children ast.midHeapSpliced 0 4 = [some 3, some 2, none] := by
  refine ⟨by decide, by decide, by decide, by decide, by decide, by decide, by decide⟩

/-- C2 counterexample: the claim says Children() yields exactly the
inserted nodes; already for a single SetLast insertion the returned slice
is the child followed by one extra nil entry, not the child alone. -/
theorem children_returns_extra_nil_entry :
    ast.Children (ast.buildLast 1) 0 1 = [some 1, none] ∧
    ast.Children (ast.buildLast 1) 0 1 ≠ [some 1] := by
  refine ⟨by decide, by decide⟩

/-- C2 (amended): for children c1, ..., ck inserted by successive SetLast
calls into an initially childless node, Children() yields exactly
c1, ..., ck in insertion order followed by one trailing nil entry, and the
backward walk from LastChild via PreviousSibling yields ck, ..., c1. -/
theorem setLast_children_insertion_order (k fuel : Nat) (hk : 1 ≤ k) (hf : k ≤ fuel) :
    ast.Children (ast.buildLast k) 0 fuel = (List.range' 1 k).map some ++ [none] ∧
    ast.backWalk (ast.buildLast k) fuel (ast.rdLast (ast.buildLast k) 0)
      = (List.range' 1 k).reverse := by
  constructor
  · exact ast.children_buildLast fuel hk hf
  · rw [ast.buildLast_eq]
    have hlast : ast.rdLast (ast.builtHeap k) 0 = some k := by
      simp [ast.rdLast, ast.builtHeap_zero_eq (j := k) (by omega)]
    rw [hlast]
    exact ast.backWalk_built k fuel hk (le_refl k) hf

/-- C2 witness: the amended claim at k = 2. -/
theorem setLast_children_insertion_order_witness :
    ast.Children (ast.buildLast 2) 0 2 = (List.range' 1 2).map some ++ [none] ∧
    ast.backWalk (ast.buildLast 2) 2 (ast.rdLast (ast.buildLast 2) 0)
      = (List.range' 1 2).reverse :=
  setLast_children_insertion_order 2 2 (by decide) (by decide)

/-- C3: for the 8-rune input LF LF CR LF CR CR LF CR, the positions
reported by Mark().Position() at the 8 prefix points are exactly
(0,0),(1,0),(2,0),(2,1),(3,0),(4,0),(4,1),(5,0): one line increment per
LF, CRLF or lone CR, decided with one rune of lookahead. -/
theorem line_returns_positions :
    (List.range 8).map (fun i => pkg.Position (pkg.Mark (pkg.iterNext (pkg.New pkg.lineInput) i)))
      = [(0, 0), (1, 0), (2, 0), (2, 1), (3, 0), (4, 0), (4, 1), (5, 0)] := by
  decide

/-- C4: a failing Expect returns a structured failure carrying the
failure position, the expected rune or literal, and the actual text of the
same length sliced from the input; a failing single-rune Expect does not
advance the cursor, so the mismatching rune still matches next. The last
conjunct replays TestParser_Expect_string_err: expecting "baz" against
"bar" reports actual text "bar". -/
theorem expect_failure_reporting (p : pkg.Parser) (r : Int) (h : pkg.Current p ≠ r) :
    (pkg.ExpectRune p r).2 = p ∧
    (pkg.ExpectRune p r).1 = Except.error
      ⟨pkg.Expectation.rune r, (p.buffer.drop p.offset).take 1, p.line, p.column⟩ ∧
    (pkg.ExpectRune p r).1 ≠ Except.ok (pkg.Mark p) ∧
    (pkg.ExpectRune ((pkg.ExpectRune p r).2) (pkg.Current p)).1 = Except.ok (pkg.Mark p) ∧
    (pkg.ExpectString (pkg.New [98, 97, 114]) [98, 97, 122]).1 = Except.error
      ⟨pkg.Expectation.str [98, 97, 122], [98, 97, 114], 0, 2⟩ := by
  refine ⟨?_, ?_, ?_, ?_, rfl⟩
  · simp [pkg.ExpectRune, h]
  · simp [pkg.ExpectRune, h]
  · simp [pkg.ExpectRune, h]
  · simp [pkg.ExpectRune, h]

/-- C4 witness: replaying ExampleParser_Expect_rune — after consuming the
first 'd' of "data", expecting 'd' again fails at line 0 column 1 with
actual text "a", leaving the parser untouched. -/
theorem expect_failure_reporting_witness :
    (pkg.ExpectRune (pkg.Next (pkg.New [100, 97, 116, 97])) 100).2
      = pkg.Next (pkg.New [100, 97, 116, 97]) ∧
    (pkg.ExpectRune (pkg.Next (pkg.New [100, 97, 116, 97])) 100).1 = Except.error
      ⟨pkg.Expectation.rune 100, [97], 0, 1⟩ :=
  have h := expect_failure_reporting (pkg.Next (pkg.New [100, 97, 116, 97])) 100 (by decide)
  ⟨h.1, by rw [h.2.1]; rfl⟩

/-- C5: Slice between two marks with ordered offsets is exactly the
substring of the buffer spanning those rune offsets, a pure projection of
the buffer; the last conjuncts replay TestParser_Slice on "abc",
including the EOD mark past the end. -/
theorem slice_spans_offsets (p : pkg.Parser) (a b : pkg.Cursor) (_hab : a.offset ≤ b.offset) :
    pkg.Slice p a b = (p.buffer.take (b.offset + 1)).drop a.offset ∧
    (b.offset < p.buffer.length → (pkg.Slice p a b).length = b.offset + 1 - a.offset) ∧
    (pkg.Slice (pkg.New [97, 98, 99]) (pkg.Mark (pkg.New [97, 98, 99]))
        (pkg.Mark (pkg.iterNext (pkg.New [97, 98, 99]) 2)) = [97, 98, 99] ∧
      (pkg.Mark (pkg.New [97, 98, 99])).rune = 97 ∧
      (pkg.Mark (pkg.iterNext (pkg.New [97, 98, 99]) 1)).rune = 98 ∧
      (pkg.Mark (pkg.iterNext (pkg.New [97, 98, 99]) 2)).rune = 99 ∧
      (pkg.Mark (pkg.iterNext (pkg.New [97, 98, 99]) 3)).rune = pkg.EOD) := by
  refine ⟨?_, ?_, by decide, by decide, by decide, by decide, by decide⟩
  · rw [pkg.Slice, List.drop_take]
  · intro hb
    simp [pkg.Slice]
    omega

/-- C5 witness: the claim applied to the marks of "abc" at 'a' and 'c'. -/
theorem slice_spans_offsets_witness :
    pkg.Slice (pkg.New [97, 98, 99]) (pkg.Mark (pkg.New [97, 98, 99]))
        (pkg.Mark (pkg.iterNext (pkg.New [97, 98, 99]) 2))
      = ((pkg.New [97, 98, 99]).buffer.take
          ((pkg.Mark (pkg.iterNext (pkg.New [97, 98, 99]) 2)).offset + 1)).drop
          (pkg.Mark (pkg.New [97, 98, 99])).offset :=
  (slice_spans_offsets (pkg.New [97, 98, 99]) (pkg.Mark (pkg.New [97, 98, 99]))
    (pkg.Mark (pkg.iterNext (pkg.New [97, 98, 99]) 2)) (by decide)).1

/-- C6: calling Next() once the cursor is done is a no-op, the mark taken
there carries the sentinel EOD rune, and Done stays true; the last
conjuncts replay ExampleParser_Done on the one-rune input "_". -/
theorem next_done_noop (p : pkg.Parser) (h : pkg.Done p = true) :
    pkg.Next p = p ∧
    (pkg.Mark p).rune = pkg.EOD ∧
    pkg.Done (pkg.Next p) = true ∧
    (pkg.Done (pkg.New [95]) = false ∧ pkg.Done (pkg.Next (pkg.New [95])) = true ∧
      (pkg.Mark (pkg.Next (pkg.New [95]))).rune = pkg.EOD) := by
  have hnoop : pkg.Next p = p := by
    simp [pkg.Next, h]
  have hcur : pkg.Current p = pkg.EOD := by
    have hl : p.buffer.length ≤ p.offset := by simpa [pkg.Done] using h
    have hn : p.buffer.get? p.offset = none := List.get?_eq_none.mpr hl
    show (p.buffer.get? p.offset).getD pkg.EOD = pkg.EOD
    rw [hn]
    rfl
  refine ⟨hnoop, by simp [pkg.Mark, hcur], by rw [hnoop]; exact h, by decide, by decide, by decide⟩

/-- C6 witness: the claim applied past the end of the input "_". -/
theorem next_done_noop_witness :
    pkg.Next (pkg.Next (pkg.New [95])) = pkg.Next (pkg.New [95]) ∧
    (pkg.Mark (pkg.Next (pkg.New [95]))).rune = pkg.EOD :=
  have h := next_done_noop (pkg.Next (pkg.New [95])) (by decide)
  ⟨h.1, h.2.1⟩

/-- C7 counterexample: rendering the tree of ExampleNode_MarshalJSONString
with the parent rule the claim states — a parent renders as the
two-element array of its type and its children — produces a leading type
element, so the output is not the text the claim (and the in-src example)
requires. -/
theorem marshal_parent_type_rule_mismatch :
    ast.marshalSibsSpec ast.jsonHeap 8 (some 0)
      = "[0,[[0,\"a\"],[0,\"a\"],[0,\"a\"],[0,\"a\"],[0,\"a\"],[1,\"\\n\"]]]" ∧
    ast.marshalSibsSpec ast.jsonHeap 8 (some 0)
      ≠ "[[0,\"a\"],[0,\"a\"],[0,\"a\"],[0,\"a\"],[0,\"a\"],[1,\"\\n\"]]" := by
  refine ⟨by decide, by decide⟩

/-- C7 (amended): serializing the capture tree of five 'a' runes of type 0
and one newline of type 1 yields exactly the pinned text; a leaf renders
as the two-element array of type and quoted escaped value, a parent as
the bracketed comma-separated list of its children's renderings without a
leading type element, and the seven escape sequences are applied. The
serializer is a pure function of the heap, so it cannot mutate the tree. -/
theorem marshal_example_output :
    ast.MarshalJSONString ast.jsonHeap 8 0
      = "[[0,\"a\"],[0,\"a\"],[0,\"a\"],[0,\"a\"],[0,\"a\"],[1,\"\\n\"]]" ∧
    ast.escape "\\" = "\\\\" ∧ ast.escape "\"" = "\\\"" ∧
    ast.escape "\x08" = "\\b" ∧ ast.escape "\x0c" = "\\f" ∧ ast.escape "\n" = "\\n" ∧
    ast.escape "\r" = "\\r" ∧ ast.escape "\t" = "\\t" := by
  refine ⟨by decide, by decide, by decide, by decide, by decide, by decide, by decide, by decide⟩

/-- C8 counterexample: node 0 is a Capture-produced leaf carrying a value;
inserting another leaf under it with SetLast leaves the value in place
while giving the node a child, so the node is a leaf and a parent at
once, refuting the claim for this construction sequence. -/
theorem capture_setLast_breaks_leaf_xor_parent :
    ((ast.SetLast ast.leafHeap 0 1) 0).value = some "x" ∧
    ast.rdFirst (ast.SetLast ast.leafHeap 0 1) 0 = some 1 ∧
    ast.IsParent (ast.SetLast ast.leafHeap 0 1) 0 = true ∧
    ¬ ast.LeafOrParent (ast.SetLast ast.leafHeap 0 1) := by
  have h1 : ((ast.SetLast ast.leafHeap 0 1) 0).value = some "x" := by decide
  have h2 : ((ast.SetLast ast.leafHeap 0 1) 0).firstChild = some 1 := by decide
  refine ⟨h1, by decide, by decide, fun hlp => ?_⟩
  rcases hlp 0 with hv | hf
  · rw [h1] at hv
    exact Option.noConfusion hv
  · rw [h2] at hf
    exact Option.noConfusion hf

/-- C8 (amended): none of the four insertion operations ever changes any
node's value, so the leaf-or-parent invariant can only break when a child
is inserted into a node that already carries a value; SetLast into a
value-free receiver preserves the invariant, and IsParent() returns true
exactly when FirstChild is set, i.e. when the node has children. -/
theorem insertion_ops_value_invariant :
    (∀ h n s i, ((ast.SetPrevious h n s) i).value = (h i).value) ∧
    (∀ h n s i, ((ast.SetNext h n s) i).value = (h i).value) ∧
    (∀ h n c i, ((ast.SetFirst h n c) i).value = (h i).value) ∧
    (∀ h n c i, ((ast.SetLast h n c) i).value = (h i).value) ∧
    (∀ h n, ast.IsParent h n = true ↔ (ast.rdFirst h n).isSome = true) ∧
    (∀ h n c, ast.LeafOrParent h → (h n).value = none → ast.LeafOrParent (ast.SetLast h n c)) :=
  ⟨ast.SetPrevious_value, ast.SetNext_value, ast.SetFirst_value, ast.SetLast_value,
    fun _ _ => Iff.rfl, ast.SetLast_leafOrParent⟩

/-- C8 witness: the invariant-preservation conjunct applied to the empty
heap, whose nodes all lack values. -/
theorem insertion_ops_value_invariant_witness :
    ast.LeafOrParent (ast.SetLast ast.heap0 0 1) :=
  insertion_ops_value_invariant.2.2.2.2.2 ast.heap0 0 1
    (fun _ => Or.inl rfl) rfl

/-- C9: when the first matcher succeeds and the second then fails, the
sequence combinator And fails and restores the exact pre-sequence parser
state; when both succeed, And succeeds with the mark of the last
element. -/
theorem and_rewinds_on_failure (p p1 : pkg.Parser) (m1 m2 : pkg.Matcher)
    (c1 : Option pkg.Cursor) (h1 : m1 p = ((c1, true), p1)) :
    ((m2 p1).1.2 = false → op.And [m1, m2] p = ((none, false), p)) ∧
    (∀ c2 p2, m2 p1 = ((c2, true), p2) → op.And [m1, m2] p = ((c2, true), p2)) := by
  constructor
  · intro h2
    rcases hm : m2 p1 with ⟨⟨c2, b2⟩, p2⟩
    rw [hm] at h2
    simp at h2
    subst h2
    simp [op.And, op.AndLoop, h1, hm]
  · intro c2 p2 h2
    simp [op.And, op.AndLoop, h1, h2]

/-- C9 witness: a succeeding then a failing matcher over a one-rune
input; the sequence fails and hands back the original parser state. -/
theorem and_rewinds_on_failure_witness :
    op.And [pkg.okMatcher, pkg.failMatcher] (pkg.New [95]) = ((none, false), pkg.New [95]) :=
  (and_rewinds_on_failure (pkg.New [95]) (pkg.New [95]) pkg.okMatcher pkg.failMatcher none rfl).1
    rfl

/-- C10: for a node whose forward sibling chain from FirstChild is the
nonempty xs, Children() returns the chain in order followed by one extra
nil entry — length one more than the child count, final element nil —
while a childless node yields the empty slice. -/
theorem children_trailing_nil (h : ast.Heap) (n : Nat) (xs : List Nat) (fuel : Nat)
    (hc : ast.chainB h (ast.rdFirst h n) xs = true) (hf : xs.length ≤ fuel) :
    (xs = [] → ast.Children h n fuel = []) ∧
    (xs ≠ [] →
      ast.Children h n fuel = xs.map some ++ [none] ∧
      (ast.Children h n fuel).length = xs.length + 1 ∧
      (ast.Children h n fuel).getLast? = some none) := by
  constructor
  · intro hxs
    subst hxs
    have hn : ast.rdFirst h n = none := by
      simpa [ast.chainB, Option.isNone_iff_eq_none] using hc
    simp [ast.Children, hn]
  · intro hxs
    obtain ⟨y, ys, rfl⟩ : ∃ y ys, xs = y :: ys := by
      rcases xs with _ | ⟨y, ys⟩
      · exact absurd rfl hxs
      · exact ⟨y, ys, rfl⟩
    simp only [ast.chainB, Bool.and_eq_true, beq_iff_eq] at hc
    obtain ⟨h1, h2⟩ := hc
    have hch : ast.Children h n fuel = (y :: ys).map some ++ [none] := by
      simp only [ast.Children, h1]
      rw [ast.childrenLoop_chain h ys y fuel h2 (by simp at hf ⊢; omega)]
      simp
    refine ⟨hch, ?_, ?_⟩
    · rw [hch]; simp
    · rw [hch]
      show ((some y :: List.map some ys) ++ [none]).getLast? = some none
      exact List.getLast?_concat _

/-- C10 witness: the claim applied to a two-child tree built by SetLast. -/
theorem children_trailing_nil_witness :
    ast.Children (ast.buildLast 2) 0 2 = [1, 2].map some ++ [none] ∧
    (ast.Children (ast.buildLast 2) 0 2).length = [1, 2].length + 1 ∧
    (ast.Children (ast.buildLast 2) 0 2).getLast? = some none :=
  (children_trailing_nil (ast.buildLast 2) 0 [1, 2] 2 (by decide) (by decide)).2 (by decide)
